import Mathlib

/-!
Verification of the week01 multithreaded TCP chat server
(`src/week01/chat_server.py`).

The server keeps two dictionaries guarded by one lock
(`name_by_sock : socket → nickname`, `sockets_by_name : nickname → socket`),
negotiates a unique nickname per connection, broadcasts chat lines and join
and departure notices to every registered socket, and routes whisper
commands (three aliases, matched on the lowercased line) to a single target.

The embedding below models Python dictionaries as ordered association
lists, sockets as natural numbers, network sends as events parameterised by
an oracle `sendOk` telling which `sendall` calls succeed, and the lock as
explicit acquire and release events in each operation's event trace.
-/

/-- Sockets are identified by a number (the file descriptor stands for the
socket object). -/
abbrev Sock := Nat

/-- A Python dict as an insertion-ordered association list. -/
abbrev Dict (K V : Type) := List (K × V)

/-- Python `d.get(k)` / `d[k]`: the value at the first (unique) matching key. -/
def dictGet {K V : Type} [DecidableEq K] : Dict K V → K → Option V
  | [], _ => none
  | (k, v) :: d, k₀ => if k₀ = k then some v else dictGet d k₀

/-- Python `d[k] = v`: replace in place when the key exists, else append. -/
def dictSet {K V : Type} [DecidableEq K] : Dict K V → K → V → Dict K V
  | [], k₀, v₀ => [(k₀, v₀)]
  | (k, v) :: d, k₀, v₀ =>
      if k₀ = k then (k₀, v₀) :: d else (k, v) :: dictSet d k₀ v₀

/-- Python `d.pop(k, None)`'s effect on the dict: drop the entries at the key. -/
def dictErase {K V : Type} [DecidableEq K] : Dict K V → K → Dict K V
  | [], _ => []
  | (k, v) :: d, k₀ =>
      if k₀ = k then dictErase d k₀ else (k, v) :: dictErase d k₀

/-- Python `d.keys()` in iteration (insertion) order. -/
def dictKeys {K V : Type} (d : Dict K V) : List K := d.map Prod.fst

/-- Python `str.strip()`: drop whitespace from both ends. -/
def py_strip (s : String) : String :=
  ⟨((s.data.dropWhile Char.isWhitespace).reverse.dropWhile
      Char.isWhitespace).reverse⟩

/-- Python `str.lower()` (character-wise lowering; only ASCII letters move). -/
def py_lower (s : String) : String := ⟨s.data.map Char.toLower⟩

/-- Python `s.startswith(p)`. -/
def py_startswith (s p : String) : Bool := p.data.isPrefixOf s.data

/-- Split a character list at its first space, when it has one. -/
def splitFirstSpace : List Char → Option (List Char × List Char)
  | [] => none
  | c :: cs =>
      if c = ' ' then some ([], cs)
      else
        match splitFirstSpace cs with
        | none => none
        | some (w, r) => some (c :: w, r)

/-- Python `msg.split(' ', 2)`: at most two splits, on single spaces. -/
def py_split_sp2 (s : String) : List String :=
  match splitFirstSpace s.data with
  | none => [s]
  | some (w₁, r₁) =>
      match splitFirstSpace r₁ with
      | none => [⟨w₁⟩, ⟨r₁⟩]
      | some (w₂, r₂) => [⟨w₁⟩, ⟨w₂⟩, ⟨r₂⟩]

/-- The initial nickname prompt. -/
def askNameMsg : String := "닉네임을 입력하세요: "

/-- Re-prompt for a blank nickname. -/
def blankNamePrompt : String := "닉네임은 공백일 수 없습니다. 다시 입력: "

/-- Re-prompt for a nickname already in use. -/
def takenNamePrompt : String := "이미 사용 중인 닉네임입니다. 다른 닉네임을 입력: "

/-- Usage notice for a malformed whisper command. -/
def usageMsg : String := "시스템> 사용법: /w 대상닉네임 메시지\n"

/-- Notice to the sender when the whisper target nickname is not registered. -/
def notFoundMsg (target : String) : String :=
  "시스템> 닉네임 '" ++ target ++ "' 사용자를 찾을 수 없습니다.\n"

/-- Notice to the sender when the send to the whisper target fails. -/
def sendFailMsg : String := "시스템> 전송 실패(상대 연결 상태를 확인하세요).\n"

/-- The whisper line the target receives. -/
def whisperToTargetMsg (sender text : String) : String :=
  "(귓속말) " ++ sender ++ "> " ++ text ++ "\n"

/-- The confirmation echo the sender receives. -/
def whisperToSenderMsg (sender target text : String) : String :=
  "(귓속말) " ++ sender ++ " -> " ++ target ++ "> " ++ text ++ "\n"

/-- The join notice broadcast after registration. -/
def joinNotice (name : String) : String := name ++ "님이 입장하셨습니다."

/-- The departure notice broadcast on disconnect. -/
def leaveNotice (name : String) : String := name ++ "님이 퇴장하셨습니다."

/-- The reserved quit token. -/
def quitToken : String := "/종료"

/-- The shared state of `ChatServer`: the two dictionaries guarded by
`clients_lock`. -/
structure Registry where
  name_by_sock : Dict Sock String
  sockets_by_name : Dict String Sock
deriving DecidableEq

/-- The registry at server start. -/
def emptyRegistry : Registry := ⟨[], []⟩

/-- An observable step of a server operation: taking or releasing
`clients_lock`, attempting `sendall` of a message on a socket, or closing a
socket. -/
inductive Ev where
  | acquire : Ev
  | release : Ev
  | send : Sock → String → Ev
  | close : Sock → Ev
deriving DecidableEq

namespace ChatServer

/-- The two dict assignments in `handle_client` after a nickname is accepted
(`name_by_sock[client_sock] = name; sockets_by_name[name] = client_sock`). -/
def register (st : Registry) (sock : Sock) (name : String) : Registry :=
  { name_by_sock := dictSet st.name_by_sock sock name
    sockets_by_name := dictSet st.sockets_by_name name sock }

/-- `_unsafe_remove`: pop the socket from `name_by_sock`; when a nickname was
found, pop it from `sockets_by_name` too. -/
def unsafe_remove (st : Registry) (sock : Sock) : Registry :=
  match dictGet st.name_by_sock sock with
  | none => st
  | some name =>
      { name_by_sock := dictErase st.name_by_sock sock
        sockets_by_name := dictErase st.sockets_by_name name }

/-- `broadcast(message)`: under the lock, append the newline, iterate
`name_by_sock.keys()`, attempt each send, collect the sockets whose send
raised, and remove them before releasing. Returns the new registry and the
event trace. -/
def broadcast (st : Registry) (sendOk : Sock → String → Bool)
    (message : String) : Registry × List Ev :=
  let payload := message ++ "\n"
  let socks := dictKeys st.name_by_sock
  let dead := socks.filter (fun s => !(sendOk s payload))
  (dead.foldl unsafe_remove st,
   Ev.acquire :: (socks.map (fun s => Ev.send s payload) ++ [Ev.release]))

/-- `send_whisper`: look the target up in `sockets_by_name` (no lock taken);
unknown target sends the sender one notice; otherwise send the target its
line, and on success send the sender the echo (its own failure swallowed),
on failure send the sender a failure notice. -/
def send_whisper (sender_name target_name text : String)
    (sockets_by_name : Dict String Sock) (sender_sock : Sock)
    (sendOk : Sock → String → Bool) : List Ev :=
  match dictGet sockets_by_name target_name with
  | none => [Ev.send sender_sock (notFoundMsg target_name)]
  | some target_sock =>
      if sendOk target_sock (whisperToTargetMsg sender_name text) then
        [Ev.send target_sock (whisperToTargetMsg sender_name text),
         Ev.send sender_sock (whisperToSenderMsg sender_name target_name text)]
      else
        [Ev.send target_sock (whisperToTargetMsg sender_name text),
         Ev.send sender_sock sendFailMsg]

/-- `_remove_client`: under the lock read the nickname and `_unsafe_remove`
the socket; after releasing, broadcast the departure notice when a nickname
was found; finally close the socket. -/
def remove_client (st : Registry) (sock : Sock)
    (sendOk : Sock → String → Bool) : Registry × List Ev :=
  match dictGet st.name_by_sock sock with
  | some name =>
      let st₁ := unsafe_remove st sock
      let r := broadcast st₁ sendOk (leaveNotice name)
      (r.1, Ev.acquire :: Ev.release :: (r.2 ++ [Ev.close sock]))
  | none =>
      (unsafe_remove st sock, [Ev.acquire, Ev.release, Ev.close sock])

/-- `_is_whisper_command`: test the three alias prefixes on the lowercased
line. -/
def is_whisper_command (msg : String) : Bool :=
  py_startswith (py_lower msg) "/w " ||
    py_startswith (py_lower msg) "/whisper " ||
    py_startswith (py_lower msg) "/귓속말 "

/-- `_parse_whisper`: split on the first two spaces; fewer than three parts,
or a blank target or body after stripping, is a parse failure. -/
def parse_whisper (msg : String) : Option (String × String) :=
  match py_split_sp2 msg with
  | [_, p₁, p₂] =>
      let target := py_strip p₁
      let text := py_strip p₂
      if target = "" ∨ text = "" then none else some (target, text)
  | _ => none

/-- `_negotiate_unique_name` over the finite list of reads this connection
will deliver (`none` = `recv` returned no data). `k` counts the prompt sends
already attempted, so `sendOk` can fail a specific re-prompt. Returns the
accepted nickname (or `none`) and the list of re-prompts attempted. -/
def negotiate (st : Registry) (sendOk : Nat → Bool) (k : Nat) :
    List (Option String) → Option String × List String
  | [] => (none, [])
  | none :: _ => (none, [])
  | some raw :: rest =>
      let name := py_strip raw
      if name = "" then
        if sendOk k then
          let r := negotiate st sendOk (k + 1) rest
          (r.1, blankNamePrompt :: r.2)
        else (none, [blankNamePrompt])
      else
        if (dictGet st.sockets_by_name name).isSome then
          if sendOk k then
            let r := negotiate st sendOk (k + 1) rest
            (r.1, takenNamePrompt :: r.2)
          else (none, [takenNamePrompt])
        else (some name, [])

/-- The message loop of `handle_client` over the finite list of reads
(`none` = `recv` returned no data; reaching the end of the list likewise
models the peer closing). Every exit path runs `_remove_client` (the
`finally` block). Whisper handling does not touch the registry; chat lines
are broadcast, which may evict dead sockets. -/
def sessionLoop (st : Registry) (sock : Sock) (name : String)
    (sendOk : Sock → String → Bool) :
    List (Option String) → Registry × List Ev
  | [] => remove_client st sock sendOk
  | none :: _ => remove_client st sock sendOk
  | some raw :: rest =>
      let msg := py_strip raw
      if msg = "" then sessionLoop st sock name sendOk rest
      else if msg = quitToken then remove_client st sock sendOk
      else if is_whisper_command msg then
        match parse_whisper msg with
        | some (target, text) =>
            let evs := send_whisper name target text st.sockets_by_name sock
              sendOk
            let r := sessionLoop st sock name sendOk rest
            (r.1, evs ++ r.2)
        | none =>
            let r := sessionLoop st sock name sendOk rest
            (r.1, Ev.send sock usageMsg :: r.2)
      else
        let r := broadcast st sendOk (name ++ "> " ++ msg)
        let r' := sessionLoop r.1 sock name sendOk rest
        (r'.1, r.2 ++ r'.2)

/-- `handle_client`: prompt for a nickname, negotiate; on failure close the
socket and run the `finally` cleanup; on success register under the lock,
broadcast the join notice, run the message loop (whose every exit runs the
cleanup). -/
def handle_client (st : Registry) (sock : Sock)
    (sendOk : Sock → String → Bool) (promptOk : Nat → Bool)
    (nameInputs msgInputs : List (Option String)) : Registry × List Ev :=
  let neg := negotiate st promptOk 0 nameInputs
  let promptEvs := neg.2.map (Ev.send sock)
  match neg.1 with
  | none =>
      let r := remove_client st sock sendOk
      (r.1, Ev.send sock askNameMsg :: (promptEvs ++ [Ev.close sock] ++ r.2))
  | some name =>
      let st₁ := register st sock name
      let rj := broadcast st₁ sendOk (joinNotice name)
      let rl := sessionLoop rj.1 sock name sendOk msgInputs
      (rl.1,
       Ev.send sock askNameMsg ::
         (promptEvs ++ [Ev.acquire, Ev.release] ++ rj.2 ++ rl.2))

end ChatServer

/-- The lock is held just before the event at position `i` of a trace: the
acquires in the first `i` events outnumber the releases. -/
def lockHeldAt (tr : List Ev) (i : Nat) : Bool :=
  (tr.take i).countP (· = Ev.acquire) > (tr.take i).countP (· = Ev.release)

/-- The discipline the specification asserts: no send event of the trace
happens while the lock is held. -/
def noSendUnderLock (tr : List Ev) : Prop :=
  ∀ i s m, tr.get? i = some (Ev.send s m) → lockHeldAt tr i = false

instance (tr : List Ev) (i : Nat) :
    Decidable (∀ s m, tr.get? i = some (Ev.send s m) → lockHeldAt tr i = false) := by
  cases h : tr.get? i with
  | none => exact .isTrue (fun s m hsm => by simp [h] at hsm)
  | some e =>
      cases e with
      | send s m =>
          cases hl : lockHeldAt tr i with
          | false => exact .isTrue (fun _ _ _ => rfl)
          | true =>
              exact .isFalse (fun hall => by
                have := hall s m (by simp [h])
                simp at this)
      | acquire => exact .isTrue (fun s m hsm => by simp [h] at hsm)
      | release => exact .isTrue (fun s m hsm => by simp [h] at hsm)
      | close s => exact .isTrue (fun s m hsm => by simp [h] at hsm)

theorem dictGet_eq_none_iff {K V : Type} [DecidableEq K] (d : Dict K V)
    (k : K) : dictGet d k = none ↔ k ∉ dictKeys d := by
  induction d with
  | nil => simp [dictGet, dictKeys]
  | cons p d ih =>
      obtain ⟨k', v⟩ := p
      by_cases h : k = k' <;> simp [dictGet, dictKeys, h, ih]

theorem dictGet_isSome_iff {K V : Type} [DecidableEq K] (d : Dict K V)
    (k : K) : (dictGet d k).isSome = true ↔ k ∈ dictKeys d := by
  induction d with
  | nil => simp [dictGet, dictKeys]
  | cons p d ih =>
      obtain ⟨k', v⟩ := p
      by_cases h : k = k' <;> simp [dictGet, dictKeys, h, ih]

theorem dictSet_of_not_mem {K V : Type} [DecidableEq K] {d : Dict K V}
    {k : K} (v : V) (h : k ∉ dictKeys d) : dictSet d k v = d ++ [(k, v)] := by
  induction d with
  | nil => simp [dictSet]
  | cons p d ih =>
      obtain ⟨k', v'⟩ := p
      simp only [dictKeys, List.map_cons, List.mem_cons] at h
      push_neg at h
      simp [dictSet, h.1, ih (by simpa [dictKeys] using h.2)]

theorem dictGet_append_fresh {K V : Type} [DecidableEq K] (d : Dict K V)
    (k k' : K) (v : V) (h : dictGet d k' = none) :
    dictGet (d ++ [(k, v)]) k' = if k' = k then some v else none := by
  induction d with
  | nil => simp [dictGet]
  | cons p d ih =>
      obtain ⟨k₁, v₁⟩ := p
      simp only [dictGet] at h ⊢
      by_cases hk : k' = k₁
      · simp [hk] at h
      · simpa [hk] using ih (by simpa [hk] using h)

theorem dictGet_append_of_mem_left {K V : Type} [DecidableEq K]
    (d e : Dict K V) (k : K) (v : V) (h : dictGet d k = some v) :
    dictGet (d ++ e) k = some v := by
  induction d with
  | nil => simp [dictGet] at h
  | cons p d ih =>
      obtain ⟨k₁, v₁⟩ := p
      simp only [dictGet] at h ⊢
      by_cases hk : k = k₁
      · simpa [hk] using h
      · simpa [hk] using ih (by simpa [hk] using h)

theorem dictGet_dictErase_self {K V : Type} [DecidableEq K] (d : Dict K V)
    (k : K) : dictGet (dictErase d k) k = none := by
  induction d with
  | nil => simp [dictErase, dictGet]
  | cons p d ih =>
      obtain ⟨k', v⟩ := p
      by_cases h : k = k'
      · subst h; simpa [dictErase] using ih
      · simp [dictErase, dictGet, h, ih]

theorem dictGet_dictErase_ne {K V : Type} [DecidableEq K] (d : Dict K V)
    {k k' : K} (h : k' ≠ k) : dictGet (dictErase d k) k' = dictGet d k' := by
  induction d with
  | nil => simp [dictErase]
  | cons p d ih =>
      obtain ⟨k₁, v⟩ := p
      by_cases hk : k = k₁
      · subst hk
        simp [dictErase, dictGet, h, ih]
      · by_cases hk' : k' = k₁ <;> simp [dictErase, dictGet, hk, hk', ih]

theorem dictKeys_dictErase_sublist {K V : Type} [DecidableEq K]
    (d : Dict K V) (k : K) :
    (dictKeys (dictErase d k)).Sublist (dictKeys d) := by
  induction d with
  | nil => simp [dictErase, dictKeys]
  | cons p d ih =>
      obtain ⟨k', v⟩ := p
      by_cases h : k = k'
      · simpa [dictErase, dictKeys, h] using ih.cons k'
      · simpa [dictErase, dictKeys, h] using ih.cons₂ k'

theorem dictKeys_append {K V : Type} (d e : Dict K V) :
    dictKeys (d ++ e) = dictKeys d ++ dictKeys e := by
  simp [dictKeys]

/-- The registry invariant: both key sets are duplicate-free, the two
directions agree, and registered nicknames are non-empty. -/
def RegistryWF (st : Registry) : Prop :=
  (dictKeys st.name_by_sock).Nodup ∧
    (dictKeys st.sockets_by_name).Nodup ∧
    (∀ s n, dictGet st.name_by_sock s = some n →
      dictGet st.sockets_by_name n = some s) ∧
    (∀ n s, dictGet st.sockets_by_name n = some s →
      dictGet st.name_by_sock s = some n) ∧
    (∀ n s, dictGet st.sockets_by_name n = some s → n ≠ "")

theorem registryWF_empty : RegistryWF emptyRegistry := by
  refine ⟨by simp [emptyRegistry, dictKeys], by simp [emptyRegistry, dictKeys],
    ?_, ?_, ?_⟩ <;> intro a b h <;> simp [emptyRegistry, dictGet] at h

theorem registryWF_register {st : Registry} {sock : Sock} {name : String}
    (hwf : RegistryWF st) (hname : name ≠ "")
    (hfree : dictGet st.sockets_by_name name = none)
    (hfresh : dictGet st.name_by_sock sock = none) :
    RegistryWF (ChatServer.register st sock name) := by
  obtain ⟨hnd₁, hnd₂, hfwd, hbwd, hne⟩ := hwf
  have e₁ : dictSet st.name_by_sock sock name = st.name_by_sock ++ [(sock, name)] :=
    dictSet_of_not_mem _ ((dictGet_eq_none_iff _ _).mp hfresh)
  have e₂ : dictSet st.sockets_by_name name sock = st.sockets_by_name ++ [(name, sock)] :=
    dictSet_of_not_mem _ ((dictGet_eq_none_iff _ _).mp hfree)
  refine ⟨?_, ?_, ?_, ?_, ?_⟩
  · simp only [ChatServer.register, e₁, dictKeys_append]
    rw [List.nodup_append]
    refine ⟨hnd₁, List.nodup_singleton _, ?_⟩
    intro a ha hb
    rw [show dictKeys [(sock, name)] = [sock] from rfl, List.mem_singleton] at hb
    subst hb
    exact (dictGet_eq_none_iff _ _).mp hfresh ha
  · simp only [ChatServer.register, e₂, dictKeys_append]
    rw [List.nodup_append]
    refine ⟨hnd₂, List.nodup_singleton _, ?_⟩
    intro a ha hb
    rw [show dictKeys [(name, sock)] = [name] from rfl, List.mem_singleton] at hb
    subst hb
    exact (dictGet_eq_none_iff _ _).mp hfree ha
  · intro s n h
    simp only [ChatServer.register, e₁, e₂] at h ⊢
    by_cases hs : dictGet st.name_by_sock s = none
    · rw [dictGet_append_fresh _ _ _ _ hs] at h
      by_cases hss : s = sock
      · subst hss
        rw [if_pos rfl] at h
        have hn : name = n := Option.some_inj.mp h
        subst hn
        rw [dictGet_append_fresh _ _ _ _ hfree]
        simp
      · simp [hss] at h
    · obtain ⟨n', hn'⟩ := Option.ne_none_iff_exists'.mp hs
      rw [dictGet_append_of_mem_left _ _ _ _ hn'] at h
      have hnn : n' = n := by simpa using h
      rw [← hnn]
      exact dictGet_append_of_mem_left _ _ _ _ (hfwd s n' hn')
  · intro n s h
    simp only [ChatServer.register, e₁, e₂] at h ⊢
    by_cases hn : dictGet st.sockets_by_name n = none
    · rw [dictGet_append_fresh _ _ _ _ hn] at h
      by_cases hnn : n = name
      · subst hnn
        rw [if_pos rfl] at h
        have hs : sock = s := Option.some_inj.mp h
        subst hs
        rw [dictGet_append_fresh _ _ _ _ hfresh]
        simp
      · simp [hnn] at h
    · obtain ⟨s', hs'⟩ := Option.ne_none_iff_exists'.mp hn
      rw [dictGet_append_of_mem_left _ _ _ _ hs'] at h
      have hss : s' = s := by simpa using h
      rw [← hss]
      exact dictGet_append_of_mem_left _ _ _ _ (hbwd n s' hs')
  · intro n s h
    simp only [ChatServer.register, e₂] at h
    by_cases hn : dictGet st.sockets_by_name n = none
    · rw [dictGet_append_fresh _ _ _ _ hn] at h
      by_cases hnn : n = name
      · subst hnn; exact hname
      · simp [hnn] at h
    · obtain ⟨s', hs'⟩ := Option.ne_none_iff_exists'.mp hn
      exact hne n s' hs'

theorem registryWF_unsafe_remove {st : Registry} (sock : Sock)
    (hwf : RegistryWF st) : RegistryWF (ChatServer.unsafe_remove st sock) := by
  obtain ⟨hnd₁, hnd₂, hfwd, hbwd, hne⟩ := hwf
  unfold ChatServer.unsafe_remove
  cases hget : dictGet st.name_by_sock sock with
  | none => exact ⟨hnd₁, hnd₂, hfwd, hbwd, hne⟩
  | some name₀ =>
      refine ⟨(dictKeys_dictErase_sublist _ _).nodup hnd₁,
        (dictKeys_dictErase_sublist _ _).nodup hnd₂, ?_, ?_, ?_⟩
      · intro s n h
        by_cases hs : s = sock
        · subst hs; simp [dictGet_dictErase_self] at h
        · rw [dictGet_dictErase_ne _ hs] at h
          have hn : n ≠ name₀ := by
            intro hn; subst hn
            have h₁ := hfwd s n h
            have h₂ := hfwd sock n hget
            rw [h₁] at h₂
            exact hs (Option.some_inj.mp h₂)
          rw [dictGet_dictErase_ne _ hn]
          exact hfwd s n h
      · intro n s h
        by_cases hn : n = name₀
        · subst hn; simp [dictGet_dictErase_self] at h
        · rw [dictGet_dictErase_ne _ hn] at h
          have hs : s ≠ sock := by
            intro hs; subst hs
            rw [hbwd n s h] at hget
            exact hn (by simpa using hget)
          rw [dictGet_dictErase_ne _ hs]
          exact hbwd n s h
      · intro n s h
        by_cases hn : n = name₀
        · subst hn; simp [dictGet_dictErase_self] at h
        · rw [dictGet_dictErase_ne _ hn] at h
          exact hne n s h

theorem unsafe_remove_get_self (st : Registry) (sock : Sock) :
    dictGet (ChatServer.unsafe_remove st sock).name_by_sock sock = none := by
  unfold ChatServer.unsafe_remove
  cases hget : dictGet st.name_by_sock sock with
  | none => exact hget
  | some n => exact dictGet_dictErase_self _ _

theorem unsafe_remove_of_absent {st : Registry} {sock : Sock}
    (h : dictGet st.name_by_sock sock = none) :
    ChatServer.unsafe_remove st sock = st := by
  unfold ChatServer.unsafe_remove
  rw [h]

theorem unsafe_remove_preserves_absent {st : Registry} {s : Sock} (s' : Sock)
    (h : dictGet st.name_by_sock s = none) :
    dictGet (ChatServer.unsafe_remove st s').name_by_sock s = none := by
  unfold ChatServer.unsafe_remove
  cases hget : dictGet st.name_by_sock s' with
  | none => exact h
  | some n =>
      by_cases hs : s = s'
      · subst hs; exact dictGet_dictErase_self _ _
      · rw [dictGet_dictErase_ne _ hs]; exact h

theorem foldl_unsafe_remove_preserves_absent (l : List Sock) :
    ∀ (st : Registry) (s : Sock), dictGet st.name_by_sock s = none →
      dictGet (l.foldl ChatServer.unsafe_remove st).name_by_sock s = none := by
  induction l with
  | nil => intro st s h; exact h
  | cons a l ih =>
      intro st s h
      exact ih _ _ (unsafe_remove_preserves_absent a h)

theorem foldl_unsafe_remove_absent_of_mem (l : List Sock) :
    ∀ (st : Registry) (s : Sock), s ∈ l →
      dictGet (l.foldl ChatServer.unsafe_remove st).name_by_sock s = none := by
  induction l with
  | nil => intro st s h; simp at h
  | cons a l ih =>
      intro st s h
      rcases List.mem_cons.mp h with h | h
      · subst h
        exact foldl_unsafe_remove_preserves_absent l _ _
          (unsafe_remove_get_self st s)
      · exact ih _ _ h

theorem filter_eq_singleton {α : Type} {l : List α} {p : α → Bool} {a : α}
    (hnd : l.Nodup) (ha : a ∈ l) (hp : ∀ x ∈ l, p x = true ↔ x = a) :
    l.filter p = [a] := by
  induction l with
  | nil => simp at ha
  | cons b l ih =>
      rcases List.mem_cons.mp ha with h | h
      · have hb : p b = true := by rw [hp b (List.mem_cons_self b l), ← h]
        have hrest : l.filter p = [] := by
          rw [List.filter_eq_nil_iff]
          intro x hx hpx
          have hxa := (hp x (List.mem_cons_of_mem b hx)).mp hpx
          rw [hxa, h] at hx
          exact (List.nodup_cons.mp hnd).1 hx
        rw [List.filter_cons_of_pos hb, hrest, ← h]
      · have hb : ¬ p b = true := by
          intro hpb
          have hba := (hp b (List.mem_cons_self b l)).mp hpb
          rw [hba] at hnd
          exact (List.nodup_cons.mp hnd).1 h
        have hrec := ih (List.nodup_cons.mp hnd).2 h
          (fun x hx => hp x (List.mem_cons_of_mem b hx))
        rw [List.filter_cons_of_neg (by simpa using hb), hrec]

theorem broadcast_registry_eq (st : Registry) (sendOk : Sock → String → Bool)
    (message : String) :
    (ChatServer.broadcast st sendOk message).1 =
      ((dictKeys st.name_by_sock).filter
        (fun s => !(sendOk s (message ++ "\n")))).foldl
        ChatServer.unsafe_remove st := rfl

theorem broadcast_trace_eq (st : Registry) (sendOk : Sock → String → Bool)
    (message : String) :
    (ChatServer.broadcast st sendOk message).2 =
      Ev.acquire ::
        ((dictKeys st.name_by_sock).map
          (fun s => Ev.send s (message ++ "\n")) ++ [Ev.release]) := rfl

theorem broadcast_send_mem (st : Registry) (sendOk : Sock → String → Bool)
    (message : String) {s : Sock} (hs : s ∈ dictKeys st.name_by_sock) :
    Ev.send s (message ++ "\n") ∈ (ChatServer.broadcast st sendOk message).2 := by
  rw [broadcast_trace_eq]
  exact List.mem_cons_of_mem _ (List.mem_append_left _
    (List.mem_map_of_mem _ hs))

theorem broadcast_send_shape (st : Registry) (sendOk : Sock → String → Bool)
    (message : String) {s : Sock} {m : String}
    (h : Ev.send s m ∈ (ChatServer.broadcast st sendOk message).2) :
    m = message ++ "\n" ∧ s ∈ dictKeys st.name_by_sock := by
  rw [broadcast_trace_eq] at h
  rcases List.mem_cons.mp h with h | h
  · simp at h
  rcases List.mem_append.mp h with h | h
  · obtain ⟨x, hx, hxe⟩ := List.mem_map.mp h
    obtain ⟨rfl, rfl⟩ : s = x ∧ m = message ++ "\n" := by
      constructor <;> [skip; skip] <;> cases hxe <;> rfl
    exact ⟨rfl, hx⟩
  · simp at h

theorem broadcast_no_close (st : Registry) (sendOk : Sock → String → Bool)
    (message : String) (s : Sock) :
    Ev.close s ∉ (ChatServer.broadcast st sendOk message).2 := by
  rw [broadcast_trace_eq]
  intro h
  rcases List.mem_cons.mp h with h | h
  · simp at h
  rcases List.mem_append.mp h with h | h
  · obtain ⟨x, _, hxe⟩ := List.mem_map.mp h
    cases hxe
  · simp at h

theorem broadcast_dead_singleton {st : Registry}
    {sendOk : Sock → String → Bool} {message : String} {s₀ : Sock}
    (hnd : (dictKeys st.name_by_sock).Nodup)
    (hmem : s₀ ∈ dictKeys st.name_by_sock)
    (hfail : sendOk s₀ (message ++ "\n") = false)
    (hok : ∀ s ∈ dictKeys st.name_by_sock, s ≠ s₀ →
      sendOk s (message ++ "\n") = true) :
    (dictKeys st.name_by_sock).filter
      (fun s => !(sendOk s (message ++ "\n"))) = [s₀] := by
  refine filter_eq_singleton hnd hmem ?_
  intro x hx
  constructor
  · intro hpx
    by_contra hne
    have := hok x hx hne
    rw [this] at hpx
    simp at hpx
  · intro hxa
    subst hxa
    rw [hfail]
    rfl

theorem broadcast_one_dead_registry {st : Registry}
    {sendOk : Sock → String → Bool} {message : String} {s₀ : Sock}
    (hnd : (dictKeys st.name_by_sock).Nodup)
    (hmem : s₀ ∈ dictKeys st.name_by_sock)
    (hfail : sendOk s₀ (message ++ "\n") = false)
    (hok : ∀ s ∈ dictKeys st.name_by_sock, s ≠ s₀ →
      sendOk s (message ++ "\n") = true) :
    (ChatServer.broadcast st sendOk message).1 =
      ChatServer.unsafe_remove st s₀ := by
  rw [broadcast_registry_eq,
    broadcast_dead_singleton hnd hmem hfail hok]
  rfl

theorem unsafe_remove_found {st : Registry} {sock : Sock} {name : String}
    (h : dictGet st.name_by_sock sock = some name) :
    ChatServer.unsafe_remove st sock =
      { name_by_sock := dictErase st.name_by_sock sock
        sockets_by_name := dictErase st.sockets_by_name name } := by
  unfold ChatServer.unsafe_remove
  rw [h]

theorem remove_client_absent_case {st : Registry} {sock : Sock}
    (sendOk : Sock → String → Bool)
    (h : dictGet st.name_by_sock sock = none) :
    ChatServer.remove_client st sock sendOk =
      (st, [Ev.acquire, Ev.release, Ev.close sock]) := by
  unfold ChatServer.remove_client
  rw [h, unsafe_remove_of_absent h]

theorem remove_client_final_absent (st : Registry) (sock : Sock)
    (sendOk : Sock → String → Bool) :
    dictGet (ChatServer.remove_client st sock sendOk).1.name_by_sock sock =
      none := by
  unfold ChatServer.remove_client
  cases hget : dictGet st.name_by_sock sock with
  | none => exact unsafe_remove_get_self st sock
  | some name =>
      rw [broadcast_registry_eq]
      exact foldl_unsafe_remove_preserves_absent _ _ _
        (unsafe_remove_get_self st sock)

/-- C2: when a broadcast over the registered connections fails on exactly
one connection, every other registered connection is still sent the payload
with success (the broadcast is not aborted), and afterwards the failed
connection is absent from both directions of the registry. -/
theorem broadcast_one_failure_delivers_and_evicts
    (st : Registry) (sendOk : Sock → String → Bool) (message : String)
    (s₀ : Sock) (n₀ : String)
    (hnd : (dictKeys st.name_by_sock).Nodup)
    (hname : dictGet st.name_by_sock s₀ = some n₀)
    (hfail : sendOk s₀ (message ++ "\n") = false)
    (hok : ∀ s ∈ dictKeys st.name_by_sock, s ≠ s₀ →
      sendOk s (message ++ "\n") = true) :
    (∀ s ∈ dictKeys st.name_by_sock, s ≠ s₀ →
      Ev.send s (message ++ "\n") ∈ (ChatServer.broadcast st sendOk message).2 ∧
        sendOk s (message ++ "\n") = true) ∧
    dictGet (ChatServer.broadcast st sendOk message).1.name_by_sock s₀ =
      none ∧
    dictGet (ChatServer.broadcast st sendOk message).1.sockets_by_name n₀ =
      none := by
  have hmem : s₀ ∈ dictKeys st.name_by_sock := by
    rw [← dictGet_isSome_iff]
    rw [hname]
    rfl
  have hreg := broadcast_one_dead_registry hnd hmem hfail hok
  refine ⟨fun s hs hne => ⟨broadcast_send_mem st sendOk message hs,
    hok s hs hne⟩, ?_, ?_⟩
  · rw [hreg, unsafe_remove_found hname]
    exact dictGet_dictErase_self _ _
  · rw [hreg, unsafe_remove_found hname]
    exact dictGet_dictErase_self _ _

theorem broadcast_one_failure_delivers_and_evicts_witness :
    dictGet (ChatServer.broadcast
        ⟨[(1, "a"), (2, "b"), (3, "c")], [("a", 1), ("b", 2), ("c", 3)]⟩
        (fun s _ => decide (s ≠ 2)) "hi").1.sockets_by_name "b" = none ∧
      Ev.send 3 "hi\n" ∈ (ChatServer.broadcast
        ⟨[(1, "a"), (2, "b"), (3, "c")], [("a", 1), ("b", 2), ("c", 3)]⟩
        (fun s _ => decide (s ≠ 2)) "hi").2 :=
  ⟨(broadcast_one_failure_delivers_and_evicts
      ⟨[(1, "a"), (2, "b"), (3, "c")], [("a", 1), ("b", 2), ("c", 3)]⟩
      (fun s _ => decide (s ≠ 2)) "hi" 2 "b" (by decide) (by decide)
      (by decide) (by decide)).2.2,
   ((broadcast_one_failure_delivers_and_evicts
      ⟨[(1, "a"), (2, "b"), (3, "c")], [("a", 1), ("b", 2), ("c", 3)]⟩
      (fun s _ => decide (s ≠ 2)) "hi" 2 "b" (by decide) (by decide)
      (by decide) (by decide)).1 3 (by decide) (by decide)).1⟩

/-- C9: the lazy eviction of the one failed connection removes exactly that
connection's pair from the two maps, closes no socket, sends nothing but the
broadcast payload itself, and a later cleanup of the evicted socket
broadcasts no departure notice. -/
theorem broadcast_eviction_frame
    (st : Registry) (sendOk : Sock → String → Bool) (message : String)
    (s₀ : Sock) (n₀ : String)
    (hnd : (dictKeys st.name_by_sock).Nodup)
    (hname : dictGet st.name_by_sock s₀ = some n₀)
    (hfail : sendOk s₀ (message ++ "\n") = false)
    (hok : ∀ s ∈ dictKeys st.name_by_sock, s ≠ s₀ →
      sendOk s (message ++ "\n") = true) :
    (ChatServer.broadcast st sendOk message).1 =
      ChatServer.unsafe_remove st s₀ ∧
    dictGet (ChatServer.broadcast st sendOk message).1.name_by_sock s₀ =
      none ∧
    dictGet (ChatServer.broadcast st sendOk message).1.sockets_by_name n₀ =
      none ∧
    (∀ s, s ≠ s₀ →
      dictGet (ChatServer.broadcast st sendOk message).1.name_by_sock s =
        dictGet st.name_by_sock s) ∧
    (∀ n, n ≠ n₀ →
      dictGet (ChatServer.broadcast st sendOk message).1.sockets_by_name n =
        dictGet st.sockets_by_name n) ∧
    Ev.close s₀ ∉ (ChatServer.broadcast st sendOk message).2 ∧
    (∀ s m, Ev.send s m ∈ (ChatServer.broadcast st sendOk message).2 →
      m = message ++ "\n") ∧
    (∀ st' : Registry, dictGet st'.name_by_sock s₀ = none →
      (ChatServer.remove_client st' s₀ sendOk).2 =
        [Ev.acquire, Ev.release, Ev.close s₀]) := by
  have hmem : s₀ ∈ dictKeys st.name_by_sock := by
    rw [← dictGet_isSome_iff]
    rw [hname]
    rfl
  have hreg := broadcast_one_dead_registry hnd hmem hfail hok
  refine ⟨hreg, ?_, ?_, ?_, ?_, broadcast_no_close st sendOk message s₀,
    fun s m hm => (broadcast_send_shape st sendOk message hm).1,
    fun st' h => by rw [remove_client_absent_case sendOk h]⟩
  · rw [hreg, unsafe_remove_found hname]
    exact dictGet_dictErase_self _ _
  · rw [hreg, unsafe_remove_found hname]
    exact dictGet_dictErase_self _ _
  · intro s hs
    rw [hreg, unsafe_remove_found hname]
    exact dictGet_dictErase_ne _ hs
  · intro n hn
    rw [hreg, unsafe_remove_found hname]
    exact dictGet_dictErase_ne _ hn

theorem broadcast_eviction_frame_witness :
    (ChatServer.broadcast ⟨[(1, "a"), (2, "b")], [("a", 1), ("b", 2)]⟩
        (fun s _ => decide (s ≠ 2)) "hi").1 =
      ChatServer.unsafe_remove ⟨[(1, "a"), (2, "b")], [("a", 1), ("b", 2)]⟩
        2 :=
  (broadcast_eviction_frame ⟨[(1, "a"), (2, "b")], [("a", 1), ("b", 2)]⟩
      (fun s _ => decide (s ≠ 2)) "hi" 2 "b" (by decide) (by decide)
      (by decide) (by decide)).1

/-- C8: running `_remove_client` a second time for the same connection is a
no-op: the registry stays exactly the state the first run left, and the
second run broadcasts nothing (its trace is lock-acquire, release, close). -/
theorem unregister_twice_noop (st : Registry) (sock : Sock)
    (sendOk : Sock → String → Bool) :
    (ChatServer.remove_client
        (ChatServer.remove_client st sock sendOk).1 sock sendOk).1 =
      (ChatServer.remove_client st sock sendOk).1 ∧
    (ChatServer.remove_client
        (ChatServer.remove_client st sock sendOk).1 sock sendOk).2 =
      [Ev.acquire, Ev.release, Ev.close sock] := by
  have h := remove_client_final_absent st sock sendOk
  rw [remove_client_absent_case sendOk h]
  exact ⟨rfl, rfl⟩

/-- The registry states the server can reach from a start state: a
registration happens only on the path `handle_client` takes (a stripped
non-empty nickname that `_negotiate_unique_name` found unused, on a fresh
socket), an unregistration (`_unsafe_remove`) at any time. -/
inductive Reaches : Registry → Registry → Prop where
  | refl (st : Registry) : Reaches st st
  | reg {st₀ st : Registry} {sock : Sock} {name : String} :
      Reaches st₀ st → name ≠ "" →
      dictGet st.sockets_by_name name = none →
      dictGet st.name_by_sock sock = none →
      Reaches st₀ (ChatServer.register st sock name)
  | unreg {st₀ st : Registry} (sock : Sock) :
      Reaches st₀ st → Reaches st₀ (ChatServer.unsafe_remove st sock)

/-- C3: every registry state reachable from the empty one by the server's
register and unregister operations satisfies the bidirectional invariant:
key sets are duplicate-free, a nickname's socket maps back to that nickname
and conversely, and registered nicknames are non-empty. -/
theorem registry_reachable_wf (st : Registry)
    (h : Reaches emptyRegistry st) : RegistryWF st := by
  induction h with
  | refl => exact registryWF_empty
  | reg _ hname hfree hfresh ih => exact registryWF_register ih hname hfree hfresh
  | unreg sock _ ih => exact registryWF_unsafe_remove sock ih

theorem registry_reachable_wf_witness :
    RegistryWF (ChatServer.unsafe_remove
      (ChatServer.register
        (ChatServer.register emptyRegistry 1 "alice") 2 "bob") 1) :=
  registry_reachable_wf _
    (Reaches.unreg 1
      (Reaches.reg
        (Reaches.reg (Reaches.refl emptyRegistry) (by decide) (by decide)
          (by decide))
        (by decide) (by decide) (by decide)))

theorem send_whisper_shape (sender target text : String)
    (sbn : Dict String Sock) (sock : Sock)
    (sendOk : Sock → String → Bool) :
    ∀ e ∈ ChatServer.send_whisper sender target text sbn sock sendOk,
      ∃ s m, e = Ev.send s m := by
  unfold ChatServer.send_whisper
  cases hg : dictGet sbn target with
  | none =>
      intro e he
      rw [List.mem_singleton] at he
      exact ⟨_, _, he⟩
  | some tsock =>
      intro e he
      have he' : e ∈
          (if sendOk tsock (whisperToTargetMsg sender text) = true then
            [Ev.send tsock (whisperToTargetMsg sender text),
             Ev.send sock (whisperToSenderMsg sender target text)]
          else
            [Ev.send tsock (whisperToTargetMsg sender text),
             Ev.send sock sendFailMsg]) := he
      by_cases hok : sendOk tsock (whisperToTargetMsg sender text) = true
      · rw [if_pos hok] at he'
        rcases List.mem_cons.mp he' with h | h
        · exact ⟨_, _, h⟩
        · rw [List.mem_singleton] at h
          exact ⟨_, _, h⟩
      · rw [if_neg hok] at he'
        rcases List.mem_cons.mp he' with h | h
        · exact ⟨_, _, h⟩
        · rw [List.mem_singleton] at h
          exact ⟨_, _, h⟩

/-- C1 (counterexample): with one registered connection and every send
succeeding, the trace of `broadcast` contains a send event at a position
where the lock is held, so the claimed discipline (snapshot under the lock,
release, then send outside it) is false of the code. -/
theorem broadcast_sends_outside_lock_cex :
    ¬ noSendUnderLock
      (ChatServer.broadcast ⟨[(0, "alice")], [("alice", 0)]⟩
        (fun _ _ => true) "hi").2 := by
  intro h
  have h1 := h 1 0 "hi\n" (by decide)
  exact absurd h1 (by decide)

/-- C1 (amended): `broadcast` acquires the lock and performs every one of
its network sends while holding it, evicting failed sockets before the
release; the whisper path never touches the lock at all (its registry lookup
and sends run outside any locked region). -/
theorem broadcast_sends_under_lock
    (st : Registry) (sendOk : Sock → String → Bool) (message : String)
    (sender target text : String) (sbn : Dict String Sock) (sock : Sock) :
    (∀ i s m,
      (ChatServer.broadcast st sendOk message).2.get? i =
        some (Ev.send s m) →
      lockHeldAt (ChatServer.broadcast st sendOk message).2 i = true) ∧
    (∀ e ∈ ChatServer.send_whisper sender target text sbn sock sendOk,
      e ≠ Ev.acquire ∧ e ≠ Ev.release) := by
  constructor
  · intro i s m hget
    rw [broadcast_trace_eq] at hget ⊢
    match i with
    | 0 => simp at hget
    | j + 1 =>
        rw [List.get?_cons_succ] at hget
        by_cases hj :
            j < ((dictKeys st.name_by_sock).map
              (fun s => Ev.send s (message ++ "\n"))).length
        · simp only [lockHeldAt]
          rw [decide_eq_true_eq, List.take_succ_cons,
            List.take_append_of_le_length (Nat.le_of_lt hj)]
          have hz :
              (((dictKeys st.name_by_sock).map
                (fun s => Ev.send s (message ++ "\n"))).take j).countP
                (fun e => decide (e = Ev.release)) = 0 := by
            rw [List.countP_eq_zero]
            intro e he
            have := List.take_subset j _ he
            obtain ⟨x, _, hx⟩ := List.mem_map.mp this
            subst hx
            simp
          rw [List.countP_cons, List.countP_cons]
          simp [hz]
        · rw [List.get?_append_right (Nat.le_of_not_lt hj)] at hget
          match hlen :
              j - ((dictKeys st.name_by_sock).map
                (fun s => Ev.send s (message ++ "\n"))).length with
          | 0 => rw [hlen] at hget; simp at hget
          | k + 1 => rw [hlen] at hget; simp at hget
  · intro e he
    obtain ⟨s', m', hsm⟩ :=
      send_whisper_shape sender target text sbn sock sendOk e he
    subst hsm
    exact ⟨by simp, by simp⟩

theorem send_whisper_not_found (sender target text : String)
    (sbn : Dict String Sock) (sock : Sock)
    (sendOk : Sock → String → Bool)
    (h : dictGet sbn target = none) :
    ChatServer.send_whisper sender target text sbn sock sendOk =
      [Ev.send sock (notFoundMsg target)] := by
  unfold ChatServer.send_whisper
  rw [h]

theorem send_whisper_found_ok (sender target text : String)
    (sbn : Dict String Sock) (sock tsock : Sock)
    (sendOk : Sock → String → Bool)
    (hreg : dictGet sbn target = some tsock)
    (hok : sendOk tsock (whisperToTargetMsg sender text) = true) :
    ChatServer.send_whisper sender target text sbn sock sendOk =
      [Ev.send tsock (whisperToTargetMsg sender text),
       Ev.send sock (whisperToSenderMsg sender target text)] := by
  unfold ChatServer.send_whisper
  rw [hreg]
  exact if_pos hok

theorem send_whisper_found_fail (sender target text : String)
    (sbn : Dict String Sock) (sock tsock : Sock)
    (sendOk : Sock → String → Bool)
    (hreg : dictGet sbn target = some tsock)
    (hfail : sendOk tsock (whisperToTargetMsg sender text) = false) :
    ChatServer.send_whisper sender target text sbn sock sendOk =
      [Ev.send tsock (whisperToTargetMsg sender text),
       Ev.send sock sendFailMsg] := by
  unfold ChatServer.send_whisper
  rw [hreg]
  exact if_neg (by rw [hfail]; exact Bool.false_ne_true)

/-- C4: a whisper to a registered target whose target send succeeds attempts
exactly two sends, the target's formatted line first and then the sender's
confirmation echo, whatever the echo send's own outcome is (a failed echo is
swallowed: no further event follows it). -/
theorem whisper_success_order_and_echo
    (sender target text : String) (sbn : Dict String Sock)
    (sock tsock : Sock) (sendOk : Sock → String → Bool)
    (hreg : dictGet sbn target = some tsock)
    (hok : sendOk tsock (whisperToTargetMsg sender text) = true) :
    ChatServer.send_whisper sender target text sbn sock sendOk =
      [Ev.send tsock (whisperToTargetMsg sender text),
       Ev.send sock (whisperToSenderMsg sender target text)] :=
  send_whisper_found_ok sender target text sbn sock tsock sendOk hreg hok

theorem whisper_success_order_and_echo_witness :
    ChatServer.send_whisper "alice" "bob" "hi" [("bob", 2)] 1
        (fun s _ => decide (s = 2)) =
      [Ev.send 2 (whisperToTargetMsg "alice" "hi"),
       Ev.send 1 (whisperToSenderMsg "alice" "bob" "hi")] :=
  whisper_success_order_and_echo "alice" "bob" "hi" [("bob", 2)] 1 2
    (fun s _ => decide (s = 2)) (by decide) (by decide)

theorem py_split_sp2_length_le (s : String) : (py_split_sp2 s).length ≤ 3 := by
  unfold py_split_sp2
  split
  · simp
  · split <;> simp

theorem parse_whisper_of_three {a b c : String} {msg : String}
    (hps : py_split_sp2 msg = [a, b, c]) :
    ChatServer.parse_whisper msg =
      (if py_strip b = "" ∨ py_strip c = "" then none
       else some (py_strip b, py_strip c)) := by
  unfold ChatServer.parse_whisper
  rw [hps]

theorem parse_whisper_of_short {msg : String}
    (hps : (py_split_sp2 msg).length < 3) :
    ChatServer.parse_whisper msg = none := by
  unfold ChatServer.parse_whisper
  match hs : py_split_sp2 msg with
  | [] => rfl
  | [a] => rfl
  | [a, b] => rfl
  | a :: b :: c :: t => rw [hs] at hps; exact absurd hps (by simp)

theorem parse_whisper_none_iff (msg : String) :
    ChatServer.parse_whisper msg = none ↔
      ((py_split_sp2 msg).length < 3 ∨
        ∃ a b c, py_split_sp2 msg = [a, b, c] ∧
          (py_strip b = "" ∨ py_strip c = "")) := by
  have hle := py_split_sp2_length_le msg
  match hps : py_split_sp2 msg with
  | [] => simp [parse_whisper_of_short (by rw [hps]; simp), hps]
  | [a] => simp [parse_whisper_of_short (by rw [hps]; simp), hps]
  | [a, b] => simp [parse_whisper_of_short (by rw [hps]; simp), hps]
  | [a, b, c] =>
      rw [parse_whisper_of_three hps]
      constructor
      · intro hnone
        by_cases h : py_strip b = "" ∨ py_strip c = ""
        · exact Or.inr ⟨a, b, c, rfl, h⟩
        · rw [if_neg h] at hnone
          cases hnone
      · intro hr
        rcases hr with h₃ | ⟨a2, b2, c2, heq, hbc⟩
        · simp at h₃
        · obtain ⟨ha, hb, hc⟩ : a = a2 ∧ b = b2 ∧ c = c2 := by
            simpa using heq
          rw [hb, hc]
          exact if_pos hbc
  | a :: b :: c :: d :: t =>
      rw [hps] at hle
      simp at hle

theorem is_whisper_command_ne {msg : String}
    (h : ChatServer.is_whisper_command msg = true) :
    msg ≠ "" ∧ msg ≠ quitToken := by
  constructor
  · intro he
    rw [he] at h
    exact absurd h (by decide)
  · intro he
    rw [he] at h
    exact absurd h (by decide)

theorem sessionLoop_usage_eq (st : Registry) (sock : Sock) (name : String)
    (sendOk : Sock → String → Bool) (raw : String)
    (rest : List (Option String))
    (hw : ChatServer.is_whisper_command (py_strip raw) = true)
    (hp : ChatServer.parse_whisper (py_strip raw) = none) :
    ChatServer.sessionLoop st sock name sendOk (some raw :: rest) =
      ((ChatServer.sessionLoop st sock name sendOk rest).1,
       Ev.send sock usageMsg ::
         (ChatServer.sessionLoop st sock name sendOk rest).2) := by
  obtain ⟨hne, hnq⟩ := is_whisper_command_ne hw
  simp [ChatServer.sessionLoop, hne, hnq, hw, hp]

theorem sessionLoop_notfound_eq (st : Registry) (sock : Sock)
    (name : String) (sendOk : Sock → String → Bool) (raw : String)
    (rest : List (Option String)) (target text : String)
    (hw : ChatServer.is_whisper_command (py_strip raw) = true)
    (hp : ChatServer.parse_whisper (py_strip raw) = some (target, text))
    (hnf : dictGet st.sockets_by_name target = none) :
    ChatServer.sessionLoop st sock name sendOk (some raw :: rest) =
      ((ChatServer.sessionLoop st sock name sendOk rest).1,
       Ev.send sock (notFoundMsg target) ::
         (ChatServer.sessionLoop st sock name sendOk rest).2) := by
  obtain ⟨hne, hnq⟩ := is_whisper_command_ne hw
  simp [ChatServer.sessionLoop, hne, hnq, hw, hp,
    send_whisper_not_found name target text st.sockets_by_name sock sendOk
      hnf]

/-- C5: a malformed whisper command (fewer than three space-separated parts,
or a blank target or body after stripping) makes the session prepend exactly
one usage notice to the sender and nothing else; a well-formed whisper to an
unregistered nickname prepends exactly one not-found notice to the sender,
without attempting the whisper send. -/
theorem whisper_failure_notice_only (st : Registry) (sock : Sock)
    (name : String) (sendOk : Sock → String → Bool) :
    (∀ msg, ChatServer.parse_whisper msg = none ↔
      ((py_split_sp2 msg).length < 3 ∨
        ∃ a b c, py_split_sp2 msg = [a, b, c] ∧
          (py_strip b = "" ∨ py_strip c = ""))) ∧
    (∀ raw rest, ChatServer.is_whisper_command (py_strip raw) = true →
      ChatServer.parse_whisper (py_strip raw) = none →
      ChatServer.sessionLoop st sock name sendOk (some raw :: rest) =
        ((ChatServer.sessionLoop st sock name sendOk rest).1,
         Ev.send sock usageMsg ::
           (ChatServer.sessionLoop st sock name sendOk rest).2)) ∧
    (∀ target text sbn, dictGet sbn target = none →
      ChatServer.send_whisper name target text sbn sock sendOk =
        [Ev.send sock (notFoundMsg target)]) ∧
    (∀ raw rest target text,
      ChatServer.is_whisper_command (py_strip raw) = true →
      ChatServer.parse_whisper (py_strip raw) = some (target, text) →
      dictGet st.sockets_by_name target = none →
      ChatServer.sessionLoop st sock name sendOk (some raw :: rest) =
        ((ChatServer.sessionLoop st sock name sendOk rest).1,
         Ev.send sock (notFoundMsg target) ::
           (ChatServer.sessionLoop st sock name sendOk rest).2)) :=
  ⟨parse_whisper_none_iff,
   fun raw rest hw hp => sessionLoop_usage_eq st sock name sendOk raw rest hw hp,
   fun target text sbn h =>
     send_whisper_not_found name target text sbn sock sendOk h,
   fun raw rest target text hw hp hnf =>
     sessionLoop_notfound_eq st sock name sendOk raw rest target text hw hp
       hnf⟩

theorem whisper_failure_notice_only_witness :
    ChatServer.sessionLoop ⟨[(1, "alice")], [("alice", 1)]⟩ 1 "alice"
        (fun _ _ => true) [some "/w bob", none] =
      ((ChatServer.sessionLoop ⟨[(1, "alice")], [("alice", 1)]⟩ 1 "alice"
          (fun _ _ => true) [none]).1,
       Ev.send 1 usageMsg ::
         (ChatServer.sessionLoop ⟨[(1, "alice")], [("alice", 1)]⟩ 1 "alice"
           (fun _ _ => true) [none]).2) :=
  (whisper_failure_notice_only ⟨[(1, "alice")], [("alice", 1)]⟩ 1 "alice"
      (fun _ _ => true)).2.1 "/w bob" [none] (by decide) (by decide)

/-- C10: whisper-alias recognition looks only at the lowercased line (so the
alias is matched case-insensitively), while the parsed target nickname is
looked up in the registry by exact string equality, so a target differing
from a registered nickname only in case gets the not-found notice instead
of a delivery. -/
theorem whisper_alias_case_target_exact (sender text : String)
    (sock : Sock) (sendOk : Sock → String → Bool) :
    (∀ a b : String, py_lower a = py_lower b →
      ChatServer.is_whisper_command a = ChatServer.is_whisper_command b) ∧
    (∀ target sbn, dictGet sbn target = none →
      ChatServer.send_whisper sender target text sbn sock sendOk =
        [Ev.send sock (notFoundMsg target)]) ∧
    ChatServer.is_whisper_command "/W Bob hi" = true ∧
    ChatServer.is_whisper_command "/WHISPER Bob hi" = true ∧
    dictGet [("bob", 5)] "Bob" = none ∧
    ChatServer.send_whisper sender "Bob" text [("bob", 5)] sock sendOk =
      [Ev.send sock (notFoundMsg "Bob")] := by
  refine ⟨?_, ?_, by decide, by decide, by decide, ?_⟩
  · intro a b h
    unfold ChatServer.is_whisper_command
    rw [h]
  · intro target sbn h
    exact send_whisper_not_found sender target text sbn sock sendOk h
  · exact send_whisper_not_found sender "Bob" text [("bob", 5)] sock sendOk
      (by decide)

/-- C6: during nickname negotiation a blank submission re-prompts, a taken
nickname re-prompts, and neither consults anything but the inputs (the
registry is read, never written, and the accepted-name registration happens
only after negotiation); when the peer disconnects before a name is
accepted, the whole session leaves the registry exactly as it was, sends
only to the connecting socket itself (so no notice is broadcast), and closes
the socket. -/
theorem negotiation_rules (st : Registry) (sock : Sock)
    (sendOk : Sock → String → Bool) (promptOk : Nat → Bool) :
    (∀ rest k, ChatServer.negotiate st promptOk k (none :: rest) =
      (none, [])) ∧
    (∀ raw rest k, py_strip raw = "" → promptOk k = true →
      ChatServer.negotiate st promptOk k (some raw :: rest) =
        ((ChatServer.negotiate st promptOk (k + 1) rest).1,
         blankNamePrompt ::
           (ChatServer.negotiate st promptOk (k + 1) rest).2)) ∧
    (∀ raw rest k, py_strip raw ≠ "" →
      (dictGet st.sockets_by_name (py_strip raw)).isSome = true →
      promptOk k = true →
      ChatServer.negotiate st promptOk k (some raw :: rest) =
        ((ChatServer.negotiate st promptOk (k + 1) rest).1,
         takenNamePrompt ::
           (ChatServer.negotiate st promptOk (k + 1) rest).2)) ∧
    (∀ nameInputs msgInputs,
      (ChatServer.negotiate st promptOk 0 nameInputs).1 = none →
      dictGet st.name_by_sock sock = none →
      (ChatServer.handle_client st sock sendOk promptOk nameInputs
          msgInputs).1 = st ∧
      (∀ s m, Ev.send s m ∈ (ChatServer.handle_client st sock sendOk promptOk
          nameInputs msgInputs).2 → s = sock) ∧
      Ev.close sock ∈ (ChatServer.handle_client st sock sendOk promptOk
        nameInputs msgInputs).2) := by
  refine ⟨fun rest k => rfl, ?_, ?_, ?_⟩
  · intro raw rest k hblank hok
    simp [ChatServer.negotiate, hblank, hok]
  · intro raw rest k hne hsome hok
    rw [Option.isSome_iff_exists] at hsome
    obtain ⟨tsock, hts⟩ := hsome
    simp [ChatServer.negotiate, hne, hts, hok]
  · intro nameInputs msgInputs hneg habs
    have hrc := remove_client_absent_case sendOk habs
    constructor
    · simp only [ChatServer.handle_client, hneg, hrc]
    constructor
    · intro s m hm
      simp only [ChatServer.handle_client, hneg, hrc] at hm
      rcases List.mem_cons.mp hm with h | h
      · cases h; rfl
      rcases List.mem_append.mp h with h | h
      · rcases List.mem_append.mp h with h | h
        · obtain ⟨x, _, hx⟩ := List.mem_map.mp h
          cases hx; rfl
        · rw [List.mem_singleton] at h
          cases h
      · rcases List.mem_cons.mp h with h | h
        · cases h
        rcases List.mem_cons.mp h with h | h
        · cases h
        rw [List.mem_singleton] at h
        cases h
    · simp only [ChatServer.handle_client, hneg, hrc]
      refine List.mem_cons_of_mem _ (List.mem_append_right _ ?_)
      simp

theorem negotiation_rules_witness :
    (ChatServer.handle_client ⟨[(1, "alice")], [("alice", 1)]⟩ 2
        (fun _ _ => true) (fun _ => true)
        [some " ", some "alice", none] []).1 =
      ⟨[(1, "alice")], [("alice", 1)]⟩ :=
  ((negotiation_rules ⟨[(1, "alice")], [("alice", 1)]⟩ 2 (fun _ _ => true)
      (fun _ => true)).2.2.2 [some " ", some "alice", none] [] (by decide)
    (by decide)).1

theorem remove_client_found_case {st : Registry} {sock : Sock} {n : String}
    (sendOk : Sock → String → Bool)
    (h : dictGet st.name_by_sock sock = some n) :
    ChatServer.remove_client st sock sendOk =
      ((ChatServer.broadcast (ChatServer.unsafe_remove st sock) sendOk
          (leaveNotice n)).1,
       Ev.acquire :: Ev.release ::
         ((ChatServer.broadcast (ChatServer.unsafe_remove st sock) sendOk
            (leaveNotice n)).2 ++ [Ev.close sock])) := by
  unfold ChatServer.remove_client
  rw [h]

theorem remove_client_send_shape {st : Registry} {sock : Sock}
    (sendOk : Sock → String → Bool) {s : Sock} {m : String}
    (h : Ev.send s m ∈ (ChatServer.remove_client st sock sendOk).2) :
    ∃ n, dictGet st.name_by_sock sock = some n ∧
      m = leaveNotice n ++ "\n" := by
  cases hget : dictGet st.name_by_sock sock with
  | none =>
      rw [remove_client_absent_case sendOk hget] at h
      rcases List.mem_cons.mp h with h | h
      · cases h
      rcases List.mem_cons.mp h with h | h
      · cases h
      rw [List.mem_singleton] at h
      cases h
  | some n =>
      rw [remove_client_found_case sendOk hget] at h
      rcases List.mem_cons.mp h with h | h
      · cases h
      rcases List.mem_cons.mp h with h | h
      · cases h
      rcases List.mem_append.mp h with h | h
      · exact ⟨n, rfl, (broadcast_send_shape _ _ _ h).1⟩
      · rw [List.mem_singleton] at h
        cases h

theorem remove_client_close_mem (st : Registry) (sock : Sock)
    (sendOk : Sock → String → Bool) :
    Ev.close sock ∈ (ChatServer.remove_client st sock sendOk).2 := by
  cases hget : dictGet st.name_by_sock sock with
  | none =>
      rw [remove_client_absent_case sendOk hget]
      simp
  | some n =>
      rw [remove_client_found_case sendOk hget]
      refine List.mem_cons_of_mem _ (List.mem_cons_of_mem _
        (List.mem_append_right _ ?_))
      simp

theorem send_whisper_msg_shape (sender target text : String)
    (sbn : Dict String Sock) (sock : Sock)
    (sendOk : Sock → String → Bool) {s : Sock} {m : String}
    (h : Ev.send s m ∈ ChatServer.send_whisper sender target text sbn sock
      sendOk) :
    m = whisperToTargetMsg sender text ∨
      m = whisperToSenderMsg sender target text ∨
      m = notFoundMsg target ∨ m = sendFailMsg := by
  cases hg : dictGet sbn target with
  | none =>
      rw [send_whisper_not_found sender target text sbn sock sendOk hg] at h
      rw [List.mem_singleton] at h
      cases h
      exact Or.inr (Or.inr (Or.inl rfl))
  | some tsock =>
      by_cases hok : sendOk tsock (whisperToTargetMsg sender text) = true
      · rw [send_whisper_found_ok sender target text sbn sock tsock sendOk
          hg hok] at h
        rcases List.mem_cons.mp h with h | h
        · cases h
          exact Or.inl rfl
        · rw [List.mem_singleton] at h
          cases h
          exact Or.inr (Or.inl rfl)
      · rw [Bool.not_eq_true] at hok
        rw [send_whisper_found_fail sender target text sbn sock tsock sendOk
          hg hok] at h
        rcases List.mem_cons.mp h with h | h
        · cases h
          exact Or.inl rfl
        · rw [List.mem_singleton] at h
          cases h
          exact Or.inr (Or.inr (Or.inr rfl))

theorem sessionLoop_eof_eq (st : Registry) (sock : Sock) (name : String)
    (sendOk : Sock → String → Bool) (rest : List (Option String)) :
    ChatServer.sessionLoop st sock name sendOk (none :: rest) =
      ChatServer.remove_client st sock sendOk := rfl

theorem sessionLoop_nil_eq (st : Registry) (sock : Sock) (name : String)
    (sendOk : Sock → String → Bool) :
    ChatServer.sessionLoop st sock name sendOk [] =
      ChatServer.remove_client st sock sendOk := rfl

theorem sessionLoop_blank_eq (st : Registry) (sock : Sock) (name : String)
    (sendOk : Sock → String → Bool) {raw : String}
    (rest : List (Option String)) (h : py_strip raw = "") :
    ChatServer.sessionLoop st sock name sendOk (some raw :: rest) =
      ChatServer.sessionLoop st sock name sendOk rest := by
  simp [ChatServer.sessionLoop, h]

theorem sessionLoop_quit_eq (st : Registry) (sock : Sock) (name : String)
    (sendOk : Sock → String → Bool) {raw : String}
    (rest : List (Option String)) (h : py_strip raw = quitToken) :
    ChatServer.sessionLoop st sock name sendOk (some raw :: rest) =
      ChatServer.remove_client st sock sendOk := by
  have hne : py_strip raw ≠ "" := by rw [h]; decide
  simp [ChatServer.sessionLoop, hne, h]
  intro hq
  exact absurd hq (by decide)

theorem sessionLoop_whisper_eq (st : Registry) (sock : Sock) (name : String)
    (sendOk : Sock → String → Bool) {raw target text : String}
    (rest : List (Option String))
    (hne : py_strip raw ≠ "") (hnq : py_strip raw ≠ quitToken)
    (hw : ChatServer.is_whisper_command (py_strip raw) = true)
    (hp : ChatServer.parse_whisper (py_strip raw) = some (target, text)) :
    ChatServer.sessionLoop st sock name sendOk (some raw :: rest) =
      ((ChatServer.sessionLoop st sock name sendOk rest).1,
       ChatServer.send_whisper name target text st.sockets_by_name sock
           sendOk ++
         (ChatServer.sessionLoop st sock name sendOk rest).2) := by
  simp [ChatServer.sessionLoop, hne, hnq, hw, hp]

theorem sessionLoop_chat_eq (st : Registry) (sock : Sock) (name : String)
    (sendOk : Sock → String → Bool) {raw : String}
    (rest : List (Option String))
    (hne : py_strip raw ≠ "") (hnq : py_strip raw ≠ quitToken)
    (hw : ChatServer.is_whisper_command (py_strip raw) = false) :
    ChatServer.sessionLoop st sock name sendOk (some raw :: rest) =
      ((ChatServer.sessionLoop
          (ChatServer.broadcast st sendOk (name ++ "> " ++ py_strip raw)).1
          sock name sendOk rest).1,
       (ChatServer.broadcast st sendOk (name ++ "> " ++ py_strip raw)).2 ++
         (ChatServer.sessionLoop
           (ChatServer.broadcast st sendOk (name ++ "> " ++ py_strip raw)).1
           sock name sendOk rest).2) := by
  simp [ChatServer.sessionLoop, hne, hnq, hw]

theorem string_ne_of_rev_one {a b : String} {ca cb : Char}
    (ha : a.data.reverse.get? 1 = some ca)
    (hb : b.data.reverse.get? 1 = some cb) (h : ca ≠ cb) : a ≠ b := by
  intro he
  rw [he] at ha
  rw [ha] at hb
  exact h (Option.some_inj.mp hb)

theorem quit_payload_rev (name : String) :
    (name ++ "> " ++ quitToken ++ "\n").data.reverse =
      '\n' :: '료' :: '종' :: '/' :: ' ' :: '>' :: name.data.reverse := by
  simp [String.data_append, quitToken, List.reverse_append]

theorem quit_payload_rev_one (name : String) :
    (name ++ "> " ++ quitToken ++ "\n").data.reverse.get? 1 = some '료' := by
  rw [quit_payload_rev]
  rfl

theorem leave_payload_rev_one (n : String) :
    (leaveNotice n ++ "\n").data.reverse.get? 1 = some '.' := by
  have : (leaveNotice n ++ "\n").data.reverse =
      '\n' :: '.' :: '다' :: '니' :: '습' :: '셨' :: '하' :: '장' :: '퇴' ::
        ' ' :: '이' :: '님' :: n.data.reverse := by
    simp [leaveNotice, String.data_append, List.reverse_append]
  rw [this]
  rfl

theorem notfound_payload_rev_one (t : String) :
    (notFoundMsg t).data.reverse.get? 1 = some '.' := by
  have : (notFoundMsg t).data.reverse =
      '\n' :: '.' :: '다' :: '니' :: '습' :: '없' :: ' ' :: '수' :: ' ' ::
        '을' :: '찾' :: ' ' :: '를' :: '자' :: '용' :: '사' :: ' ' :: '\'' ::
        t.data.reverse ++ ('\'' :: ' ' :: '임' :: '네' :: '닉' :: ' ' ::
          '>' :: '템' :: '스' :: '시' :: []) := by
    simp [notFoundMsg, String.data_append, List.reverse_append]
  rw [this]
  rfl

theorem whisper_target_len (sender text : String) :
    (whisperToTargetMsg sender text).length =
      sender.length + text.length + 9 := by
  simp [whisperToTargetMsg, String.length_append]
  have h₁ : ("(귓속말) " : String).length = 6 := by decide
  have h₂ : ("> " : String).length = 2 := by decide
  have h₃ : ("\n" : String).length = 1 := by decide
  omega

theorem whisper_sender_len (sender target text : String) :
    (whisperToSenderMsg sender target text).length =
      sender.length + target.length + text.length + 13 := by
  simp [whisperToSenderMsg, String.length_append]
  have h₁ : ("(귓속말) " : String).length = 6 := by decide
  have h₂ : (" -> " : String).length = 4 := by decide
  have h₃ : ("> " : String).length = 2 := by decide
  have h₄ : ("\n" : String).length = 1 := by decide
  omega

theorem quit_payload_len (name : String) :
    (name ++ "> " ++ quitToken ++ "\n").length = name.length + 6 := by
  simp [String.length_append, quitToken]
  have h₂ : ("> " : String).length = 2 := by decide
  have h₃ : ("\n" : String).length = 1 := by decide
  have h₄ : ("/종료" : String).length = 3 := by decide
  omega

theorem chat_payload_inj {name msg₁ msg₂ : String}
    (h : name ++ "> " ++ msg₁ ++ "\n" = name ++ "> " ++ msg₂ ++ "\n") :
    msg₁ = msg₂ := by
  have hd : name.data ++ ("> ".data ++ (msg₁.data ++ "\n".data)) =
      name.data ++ ("> ".data ++ (msg₂.data ++ "\n".data)) := by
    have := congrArg String.data h
    simpa [String.data_append, List.append_assoc] using this
  have h₁ := List.append_cancel_left hd
  have h₂ := List.append_cancel_left h₁
  have h₃ := List.append_cancel_right h₂
  exact String.ext h₃

theorem sessionLoop_send_shape (sock : Sock) (name : String)
    (sendOk : Sock → String → Bool) :
    ∀ (inputs : List (Option String)) (st : Registry) (s : Sock)
      (m : String),
      Ev.send s m ∈ (ChatServer.sessionLoop st sock name sendOk inputs).2 →
      (∃ msg, m = name ++ "> " ++ msg ++ "\n" ∧ msg ≠ quitToken ∧
        msg ≠ "") ∨
      (∃ text, m = whisperToTargetMsg name text) ∨
      (∃ target text, m = whisperToSenderMsg name target text) ∨
      (∃ target, m = notFoundMsg target) ∨
      m = sendFailMsg ∨ m = usageMsg ∨
      (∃ n, m = leaveNotice n ++ "\n") := by
  intro inputs
  induction inputs with
  | nil =>
      intro st s m h
      rw [sessionLoop_nil_eq] at h
      obtain ⟨n, _, hm⟩ := remove_client_send_shape sendOk h
      exact Or.inr (Or.inr (Or.inr (Or.inr (Or.inr (Or.inr ⟨n, hm⟩)))))
  | cons i rest ih =>
      intro st s m h
      cases i with
      | none =>
          rw [sessionLoop_eof_eq] at h
          obtain ⟨n, _, hm⟩ := remove_client_send_shape sendOk h
          exact Or.inr (Or.inr (Or.inr (Or.inr (Or.inr (Or.inr ⟨n, hm⟩)))))
      | some raw =>
          by_cases hblank : py_strip raw = ""
          · rw [sessionLoop_blank_eq st sock name sendOk rest hblank] at h
            exact ih st s m h
          · by_cases hquit : py_strip raw = quitToken
            · rw [sessionLoop_quit_eq st sock name sendOk rest hquit] at h
              obtain ⟨n, _, hm⟩ := remove_client_send_shape sendOk h
              exact Or.inr (Or.inr (Or.inr (Or.inr (Or.inr
                (Or.inr ⟨n, hm⟩)))))
            · by_cases hw :
                  ChatServer.is_whisper_command (py_strip raw) = true
              · cases hp : ChatServer.parse_whisper (py_strip raw) with
                | some p =>
                    obtain ⟨target, text⟩ := p
                    rw [sessionLoop_whisper_eq st sock name sendOk rest
                      hblank hquit hw hp] at h
                    rcases List.mem_append.mp h with h | h
                    · rcases send_whisper_msg_shape name target text
                        st.sockets_by_name sock sendOk h with
                        h' | h' | h' | h'
                      · exact Or.inr (Or.inl ⟨text, h'⟩)
                      · exact Or.inr (Or.inr (Or.inl ⟨target, text, h'⟩))
                      · exact Or.inr (Or.inr (Or.inr (Or.inl ⟨target, h'⟩)))
                      · exact Or.inr (Or.inr (Or.inr (Or.inr (Or.inl h'))))
                    · exact ih st s m h
                | none =>
                    rw [sessionLoop_usage_eq st sock name sendOk raw rest hw
                      hp] at h
                    rcases List.mem_cons.mp h with h | h
                    · cases h
                      exact Or.inr (Or.inr (Or.inr (Or.inr (Or.inr
                        (Or.inl rfl)))))
                    · exact ih st s m h
              · rw [Bool.not_eq_true] at hw
                rw [sessionLoop_chat_eq st sock name sendOk rest hblank
                  hquit hw] at h
                rcases List.mem_append.mp h with h | h
                · have := (broadcast_send_shape st sendOk
                    (name ++ "> " ++ py_strip raw) h).1
                  exact Or.inl ⟨py_strip raw, this, hquit, hblank⟩
                · exact ih _ s m h

theorem sessionLoop_final_absent (sock : Sock) (name : String)
    (sendOk : Sock → String → Bool) :
    ∀ (inputs : List (Option String)) (st : Registry),
      dictGet (ChatServer.sessionLoop st sock name sendOk
        inputs).1.name_by_sock sock = none := by
  intro inputs
  induction inputs with
  | nil => intro st; exact remove_client_final_absent st sock sendOk
  | cons i rest ih =>
      intro st
      cases i with
      | none => exact remove_client_final_absent st sock sendOk
      | some raw =>
          by_cases hblank : py_strip raw = ""
          · rw [sessionLoop_blank_eq st sock name sendOk rest hblank]
            exact ih st
          · by_cases hquit : py_strip raw = quitToken
            · rw [sessionLoop_quit_eq st sock name sendOk rest hquit]
              exact remove_client_final_absent st sock sendOk
            · by_cases hw :
                  ChatServer.is_whisper_command (py_strip raw) = true
              · cases hp : ChatServer.parse_whisper (py_strip raw) with
                | some p =>
                    obtain ⟨target, text⟩ := p
                    rw [sessionLoop_whisper_eq st sock name sendOk rest
                      hblank hquit hw hp]
                    exact ih st
                | none =>
                    rw [sessionLoop_usage_eq st sock name sendOk raw rest hw
                      hp]
                    exact ih st
              · rw [Bool.not_eq_true] at hw
                rw [sessionLoop_chat_eq st sock name sendOk rest hblank
                  hquit hw]
                exact ih _

theorem quit_payload_not_sent (sock : Sock) (name : String)
    (sendOk : Sock → String → Bool) (inputs : List (Option String))
    (st : Registry) (s : Sock) :
    Ev.send s (name ++ "> " ++ quitToken ++ "\n") ∉
      (ChatServer.sessionLoop st sock name sendOk inputs).2 := by
  intro h
  rcases sessionLoop_send_shape sock name sendOk inputs st s _ h with
    ⟨msg, hm, hq, _⟩ | ⟨text, hm⟩ | ⟨target, text, hm⟩ | ⟨target, hm⟩ |
    hm | hm | ⟨n, hm⟩
  · exact hq (chat_payload_inj hm).symm
  · have hl := congrArg String.length hm
    rw [quit_payload_len, whisper_target_len] at hl
    omega
  · have hl := congrArg String.length hm
    rw [quit_payload_len, whisper_sender_len] at hl
    omega
  · exact string_ne_of_rev_one (quit_payload_rev_one name)
      (notfound_payload_rev_one target) (by decide) hm
  · exact string_ne_of_rev_one (quit_payload_rev_one name)
      (show sendFailMsg.data.reverse.get? 1 = some '.' from rfl)
      (by decide) hm
  · exact string_ne_of_rev_one (quit_payload_rev_one name)
      (show usageMsg.data.reverse.get? 1 = some '지' from rfl)
      (by decide) hm
  · exact string_ne_of_rev_one (quit_payload_rev_one name)
      (leave_payload_rev_one n) (by decide) hm

/-- C7: a line stripping to the quit token, or a read returning no data,
ends the message loop with exactly the cleanup `_remove_client` performs;
the quit token is never delivered to any client as a chat message in any
session trace; after the loop the session socket is unregistered; the
socket is closed; the departure notice goes to every connection still
registered exactly when a nickname was registered for the socket, and an
unregistered socket's cleanup sends nothing at all. -/
theorem quit_and_disconnect_semantics (st : Registry) (sock : Sock)
    (name : String) (sendOk : Sock → String → Bool) :
    (∀ rest raw, py_strip raw = quitToken →
      ChatServer.sessionLoop st sock name sendOk (some raw :: rest) =
        ChatServer.remove_client st sock sendOk) ∧
    (∀ rest, ChatServer.sessionLoop st sock name sendOk (none :: rest) =
      ChatServer.remove_client st sock sendOk) ∧
    (∀ inputs s,
      Ev.send s (name ++ "> " ++ quitToken ++ "\n") ∉
        (ChatServer.sessionLoop st sock name sendOk inputs).2) ∧
    (∀ inputs,
      dictGet (ChatServer.sessionLoop st sock name sendOk
        inputs).1.name_by_sock sock = none) ∧
    Ev.close sock ∈ (ChatServer.remove_client st sock sendOk).2 ∧
    (∀ n, dictGet st.name_by_sock sock = some n →
      ∀ s ∈ dictKeys (ChatServer.unsafe_remove st sock).name_by_sock,
        Ev.send s (leaveNotice n ++ "\n") ∈
          (ChatServer.remove_client st sock sendOk).2) ∧
    (dictGet st.name_by_sock sock = none →
      ∀ s m, Ev.send s m ∉ (ChatServer.remove_client st sock sendOk).2) := by
  refine ⟨?_, fun rest => rfl, ?_, ?_, remove_client_close_mem st sock sendOk,
    ?_, ?_⟩
  · intro rest raw hq
    exact sessionLoop_quit_eq st sock name sendOk rest hq
  · intro inputs s
    exact quit_payload_not_sent sock name sendOk inputs st s
  · intro inputs
    exact sessionLoop_final_absent sock name sendOk inputs st
  · intro n hn s hs
    rw [remove_client_found_case sendOk hn]
    refine List.mem_cons_of_mem _ (List.mem_cons_of_mem _
      (List.mem_append_left _ ?_))
    exact broadcast_send_mem _ sendOk _ hs
  · intro habs s m hm
    rw [remove_client_absent_case sendOk habs] at hm
    rcases List.mem_cons.mp hm with h | h
    · cases h
    rcases List.mem_cons.mp h with h | h
    · cases h
    rw [List.mem_singleton] at h
    cases h

theorem quit_and_disconnect_semantics_witness :
    ChatServer.sessionLoop ⟨[(1, "a"), (2, "b")], [("a", 1), ("b", 2)]⟩ 1
        "a" (fun _ _ => true) [some "/종료", some "ignored"] =
      ChatServer.remove_client ⟨[(1, "a"), (2, "b")], [("a", 1), ("b", 2)]⟩
        1 (fun _ _ => true) :=
  (quit_and_disconnect_semantics ⟨[(1, "a"), (2, "b")], [("a", 1), ("b", 2)]⟩
      1 "a" (fun _ _ => true)).1 [some "ignored"] "/종료" (by decide)
